import Mathlib

/-!
Shallow embedding of the ADCP velocity-profile transforms from
`ion_functions/data/adcp_functions.py`, together with theorems settling the
stated properties of the beam-to-instrument transform, the
instrument-to-Earth rotation, the magnetic-declination correction and the
bin-depth utilities.

Numeric arrays of shape (N, M) are embedded as functions `Fin n → Fin m → ℝ`;
per-sample scalar attributes as `Fin n → ℝ`.  Floating-point arithmetic is
idealised as exact real arithmetic.  A separate `NpArray` model with explicit
shapes captures numpy's broadcasting semantics for the shape-mismatch claim.
-/

open Real
open scoped Matrix

namespace AdcpFunctions

/-- `np.radians` / `np.deg2rad`: degrees to radians. -/
noncomputable def deg2rad (d : ℝ) : ℝ := d * (Real.pi / 180)

/-! ### adcp_beam2ins -/

/-- Embedding of `adcp_beam2ins`: beam coordinates to instrument coordinates.
Mirrors the source: `theta = 20.0 / 180.0 * np.pi`, `a = 1/(2 sin theta)`,
`b = 1/(4 cos theta)`, `c = 1.0`, `d = a / sqrt 2`, and the four linear
combinations of the beams. -/
noncomputable def adcp_beam2ins {n m : ℕ} (b1 b2 b3 b4 : Fin n → Fin m → ℝ) :
    (Fin n → Fin m → ℝ) × (Fin n → Fin m → ℝ) × (Fin n → Fin m → ℝ) ×
      (Fin n → Fin m → ℝ) :=
  let theta : ℝ := 20.0 / 180.0 * Real.pi
  let a : ℝ := 1.0 / (2.0 * Real.sin theta)
  let b : ℝ := 1.0 / (4.0 * Real.cos theta)
  let c : ℝ := 1.0
  let d : ℝ := a / Real.sqrt 2.0
  (fun i j => c * a * (b1 i j - b2 i j),
   fun i j => c * a * (b4 i j - b3 i j),
   fun i j => b * (b1 i j + b2 i j + b3 i j + b4 i j),
   fun i j => d * (b1 i j + b2 i j - b3 i j - b4 i j))

/-! ### magnetic_correction -/

/-- The per-sample 2×2 declination rotation matrix `M` built by
`magnetic_correction` from `theta_rad = np.radians(theta)`. -/
noncomputable def magcor_M (theta : ℝ) : Matrix (Fin 2) (Fin 2) ℝ :=
  !![Real.cos (deg2rad theta),  Real.sin (deg2rad theta);
     -Real.sin (deg2rad theta), Real.cos (deg2rad theta)]

/-- Embedding of `magnetic_correction`: per-sample declination rotation of the
Earth-frame east/north velocity profiles.  The Einstein summation
`uv_cor(i,k) = M(i,j) * uv(j,k)` on each sample slice `h` is written as an
explicit sum over `Fin 2`. -/
noncomputable def magnetic_correction {n m : ℕ} (theta : Fin n → ℝ)
    (u v : Fin n → Fin m → ℝ) :
    (Fin n → Fin m → ℝ) × (Fin n → Fin m → ℝ) :=
  let uv : Fin n → Fin 2 → Fin m → ℝ := fun h l => ![u h, v h] l
  let uv_cor : Fin n → Fin 2 → Fin m → ℝ :=
    fun h i k => ∑ j : Fin 2, magcor_M (theta h) i j * uv h j k
  (fun h k => uv_cor h 0 k, fun h k => uv_cor h 1 k)

/-! ### adcp_ins2earth -/

/-- The effective roll `R = roll + (180.0 * mask)` computed by
`adcp_ins2earth`, where `mask = (vertical == 1)`. -/
def ins2earth_R (roll : ℝ) (vertical : ℕ) : ℝ :=
  roll + 180.0 * (if vertical = 1 then 1 else 0)

/-- The corrected pitch angle `Prad = np.arctan(np.tan(t1rad) * np.cos(t2rad))`
computed by `adcp_ins2earth` from the raw (pre-offset) roll. -/
noncomputable def ins2earth_P (pitch roll : ℝ) : ℝ :=
  Real.arctan (Real.tan (deg2rad pitch) * Real.cos (deg2rad roll))

/-- The heading rotation matrix `M1` built by `adcp_ins2earth` from
`Hrad = np.radians(heading)`. -/
noncomputable def ins2earth_M1 (heading : ℝ) : Matrix (Fin 3) (Fin 3) ℝ :=
  !![Real.cos (deg2rad heading),  Real.sin (deg2rad heading), 0;
     -Real.sin (deg2rad heading), Real.cos (deg2rad heading), 0;
     0, 0, 1]

/-- The pitch rotation matrix `M2` built by `adcp_ins2earth` from the
corrected pitch `Prad`. -/
noncomputable def ins2earth_M2 (pitch roll : ℝ) : Matrix (Fin 3) (Fin 3) ℝ :=
  !![1, 0, 0;
     0, Real.cos (ins2earth_P pitch roll), -Real.sin (ins2earth_P pitch roll);
     0, Real.sin (ins2earth_P pitch roll), Real.cos (ins2earth_P pitch roll)]

/-- The roll rotation matrix `M3` built by `adcp_ins2earth` from
`Rrad = np.radians(R)` with `R` the effective roll. -/
noncomputable def ins2earth_M3 (roll : ℝ) (vertical : ℕ) : Matrix (Fin 3) (Fin 3) ℝ :=
  !![Real.cos (deg2rad (ins2earth_R roll vertical)), 0,
       Real.sin (deg2rad (ins2earth_R roll vertical));
     0, 1, 0;
     -Real.sin (deg2rad (ins2earth_R roll vertical)), 0,
       Real.cos (deg2rad (ins2earth_R roll vertical))]

/-- The combined per-sample matrix of `adcp_ins2earth`, written exactly as the
Einstein summation `MM(i,l) = M1(i,j) * M2(j,k) * M3(k,l)` on each sample
slice. -/
noncomputable def ins2earth_MM (heading pitch roll : ℝ) (vertical : ℕ) :
    Matrix (Fin 3) (Fin 3) ℝ :=
  Matrix.of fun i l => ∑ j : Fin 3, ∑ k : Fin 3,
    ins2earth_M1 heading i j * ins2earth_M2 pitch roll j k *
      ins2earth_M3 roll vertical k l

/-- Embedding of `adcp_ins2earth`: instrument coordinates to Earth
coordinates.  The velocities are packed into slices `uvw[:, 0..2, :]` and the
Einstein summation `uvw_earth(i,m) = MM(i,l) * uvw(l,m)` on each sample slice
is written as an explicit sum over `Fin 3`. -/
noncomputable def adcp_ins2earth {n m : ℕ} (u v w : Fin n → Fin m → ℝ)
    (heading pitch roll : Fin n → ℝ) (vertical : Fin n → ℕ) :
    (Fin n → Fin m → ℝ) × (Fin n → Fin m → ℝ) × (Fin n → Fin m → ℝ) :=
  let uvw : Fin n → Fin 3 → Fin m → ℝ := fun h l => ![u h, v h, w h] l
  let uvw_earth : Fin n → Fin 3 → Fin m → ℝ :=
    fun h i j => ∑ l : Fin 3,
      ins2earth_MM (heading h) (pitch h) (roll h) (vertical h) i l * uvw h l j
  (fun h j => uvw_earth h 0 j,
   fun h j => uvw_earth h 1 j,
   fun h j => uvw_earth h 2 j)

/-! ### Standard axis rotations, as the specification words them -/

/-- Standard right-handed rotation about the vertical axis, as used for the
heading in the specification. -/
noncomputable def heading_rotation (a : ℝ) : Matrix (Fin 3) (Fin 3) ℝ :=
  !![Real.cos a,  Real.sin a, 0;
     -Real.sin a, Real.cos a, 0;
     0, 0, 1]

/-- Standard rotation about the first (east) axis, as used for the pitch in
the specification. -/
noncomputable def pitch_rotation (a : ℝ) : Matrix (Fin 3) (Fin 3) ℝ :=
  !![1, 0, 0;
     0, Real.cos a, -Real.sin a;
     0, Real.sin a, Real.cos a]

/-- Standard rotation about the second (north) axis, as used for the roll in
the specification. -/
noncomputable def roll_rotation (a : ℝ) : Matrix (Fin 3) (Fin 3) ℝ :=
  !![Real.cos a, 0, Real.sin a;
     0, 1, 0;
     -Real.sin a, 0, Real.cos a]

/-! ### Depth utilities: enthalpy_SSO_0_p, z_from_p, adcp_bin_depths,
adcp_bin_depths_pd8 -/

/-- Embedding of `enthalpy_SSO_0_p`: enthalpy at Standard Ocean Salinity and
zero Conservative Temperature as a function of pressure (dbar). -/
noncomputable def enthalpy_SSO_0_p (p : ℝ) : ℝ :=
  let v01 : ℝ := 9.998420897506056e+2
  let v05 : ℝ := -6.698001071123802
  let v08 : ℝ := -3.988822378968490e-2
  let v12 : ℝ := -2.233269627352527e-2
  let v15 : ℝ := -1.806789763745328e-4
  let v17 : ℝ := -3.087032500374211e-7
  let v20 : ℝ := 1.550932729220080e-10
  let v21 : ℝ := 1.0
  let v26 : ℝ := -7.521448093615448e-3
  let v31 : ℝ := -3.303308871386421e-5
  let v36 : ℝ := 5.419326551148740e-6
  let v37 : ℝ := -2.742185394906099e-5
  let v41 : ℝ := -1.105097577149576e-7
  let v43 : ℝ := -1.119011592875110e-10
  let v47 : ℝ := -1.200507748551599e-15
  let SSO : ℝ := 35.16504
  let a0 := v21 + SSO * (v26 + v36 * SSO + v31 * Real.sqrt SSO)
  let a1 := v37 + v41 * SSO
  let a2 := v43
  let a3 := v47
  let b0 := v01 + SSO * (v05 + v08 * Real.sqrt SSO)
  let b1 := 0.5 * (v12 + v15 * SSO)
  let b2 := v17 + v20 * SSO
  let b1sq := b1 ^ 2
  let sqrt_disc := Real.sqrt (b1sq - b0 * b2)
  let N := a0 + (2 * a3 * b0 * b1 / b2 - a2 * b0) / b2
  let M := a1 + (4 * a3 * b1sq / b2 - a3 * b0 - 2 * a2 * b1) / b2
  let A := b1 - sqrt_disc
  let B := b1 + sqrt_disc
  let part := (N * b2 - M * b1) / (b2 * (B - A))
  let db2Pascal : ℝ := 10000.0
  db2Pascal * (p * (a2 - 2 * a3 * b1 / b2 + 0.5 * a3 * p) / b2 +
    (M / (2 * b2)) * Real.log (1 + p * (2 * b1 + b2 * p) / b0) + part *
    Real.log (1 + (b2 * p * (B - A)) / (A * (B + b2 * p))))

/-- Embedding of `z_from_p`: height from sea pressure (dbar) and latitude.
The optional `geo_strf_dyn_height` argument (default 0 in the source) is
passed explicitly. -/
noncomputable def z_from_p (p lat geo_strf_dyn_height : ℝ) : ℝ :=
  let X := Real.sin (deg2rad lat)
  let sin2 := X ^ 2
  let B := 9.780327 * (1.0 + (5.2792e-3 + (2.32e-5 * sin2)) * sin2)
  let gamma : ℝ := 2.26e-07
  let A := -0.5 * gamma * B
  let C := enthalpy_SSO_0_p p - geo_strf_dyn_height;
  -2 * C / (B + Real.sqrt (B ^ 2 - 4 * A * C))

/-- Embedding of `adcp_bin_depths` (PD0/PD12 formats).  Mirrors the source
statement for statement: the cm→m conversions, `pressure = pressure * -1`,
the (unused) `pressure_dbar = pressure / 1000`, the call
`sensor_depth = z_from_p(pressure, latitude)` — note the source passes the
negated raw `pressure`, not `pressure_dbar` — and the orientation-dependent
offsets over `np.arange(0, num_bins)`. -/
noncomputable def adcp_bin_depths (dist_first_bin bin_size : ℝ) (num_bins : ℕ)
    (pressure : ℝ) (adcp_orientation : ℕ) (latitude : ℝ) : List ℝ :=
  let dist_first_bin := dist_first_bin / 100
  let bin_size := bin_size / 100
  let pressure := pressure * -1
  let pressure_dbar := pressure / 1000
  let sensor_depth := z_from_p pressure latitude 0
  if adcp_orientation = 1 then
    (List.range num_bins).map (fun k => sensor_depth - (dist_first_bin + bin_size * k))
  else
    (List.range num_bins).map (fun k => sensor_depth + (dist_first_bin + bin_size * k))

/-- Embedding of `adcp_bin_depths_pd8` (PD8 format): cm→m conversions, the
`if sensor_depth < 0: sensor_depth = sensor_depth * -1` guard, and the
orientation-dependent offsets over `np.arange(0, num_bins)`. -/
noncomputable def adcp_bin_depths_pd8 (dist_first_bin bin_size : ℝ)
    (num_bins : ℕ) (sensor_depth : ℝ) (adcp_orientation : ℕ) : List ℝ :=
  let dist_first_bin := dist_first_bin / 100
  let bin_size := bin_size / 100
  let sensor_depth := if sensor_depth < 0 then sensor_depth * -1 else sensor_depth
  if adcp_orientation = 1 then
    (List.range num_bins).map (fun k => sensor_depth - (dist_first_bin + bin_size * k))
  else
    (List.range num_bins).map (fun k => sensor_depth + (dist_first_bin + bin_size * k))

/-! ### Shape-level model of numpy arrays and broadcasting

`adcp_beam2ins` performs no explicit shape checking: the shapes its
elementwise operations accept or reject are exactly those numpy broadcasting
accepts or rejects.  `NpArray` records an explicit 2-D shape; `np_binop`
follows numpy's rule for a binary elementwise operation: two sizes are
compatible when they are equal or one of them is 1, otherwise the operation
fails.  Indexing `data (i % rows) (j % cols)` realises the broadcast: a
size-1 axis always reads index 0. -/

/-- A 2-D numpy array with an explicit shape. -/
structure NpArray where
  rows : ℕ
  cols : ℕ
  data : ℕ → ℕ → ℝ

/-- Broadcast of one dimension pair: equal sizes, or one side of size 1;
`none` when incompatible (numpy raises `ValueError`). -/
def bdim (a b : ℕ) : Option ℕ :=
  if a = b then some a
  else if a = 1 then some b
  else if b = 1 then some a
  else none

/-- A binary elementwise numpy operation with broadcasting; fails (returns
`none`) exactly when the shapes are not broadcast-compatible. -/
def np_binop (f : ℝ → ℝ → ℝ) (x y : NpArray) : Option NpArray :=
  match bdim x.rows y.rows, bdim x.cols y.cols with
  | some r, some c =>
      some ⟨r, c, fun i j =>
        f (x.data (i % x.rows) (j % x.cols)) (y.data (i % y.rows) (j % y.cols))⟩
  | _, _ => none

/-- Multiplication of a numpy array by a scalar (always shape-preserving). -/
def np_scale (s : ℝ) (x : NpArray) : NpArray :=
  ⟨x.rows, x.cols, fun i j => s * x.data i j⟩

/-- Shape-level embedding of `adcp_beam2ins` on numpy arrays: the same four
linear combinations, each binary operation carried out left to right with
numpy broadcasting; the whole call fails with no partial result as soon as
one operation meets incompatible shapes. -/
noncomputable def adcp_beam2ins_arr (b1 b2 b3 b4 : NpArray) :
    Option (NpArray × NpArray × NpArray × NpArray) :=
  let theta : ℝ := 20.0 / 180.0 * Real.pi
  let a : ℝ := 1.0 / (2.0 * Real.sin theta)
  let b : ℝ := 1.0 / (4.0 * Real.cos theta)
  let c : ℝ := 1.0
  let d : ℝ := a / Real.sqrt 2.0
  (np_binop (fun x y => x - y) b1 b2).bind fun u0 =>
  (np_binop (fun x y => x - y) b4 b3).bind fun v0 =>
  ((np_binop (fun x y => x + y) b1 b2).bind fun s12 =>
   (np_binop (fun x y => x + y) s12 b3).bind fun s123 =>
   np_binop (fun x y => x + y) s123 b4).bind fun w0 =>
  ((np_binop (fun x y => x + y) b1 b2).bind fun t12 =>
   (np_binop (fun x y => x - y) t12 b3).bind fun t123 =>
   np_binop (fun x y => x - y) t123 b4).bind fun e0 =>
  some (np_scale (c * a) u0, np_scale (c * a) v0, np_scale b w0, np_scale d e0)

/-- Pairwise numpy broadcast compatibility of two sizes: equal, or one of
them is 1. -/
def np_compat (a b : ℕ) : Prop := a = b ∨ a = 1 ∨ b = 1

/-- numpy broadcast compatibility of the four beam arrays (the n-ary numpy
rule: along each axis, every pair of sizes must be equal or have a side of
size 1). -/
def beams_broadcastable (b1 b2 b3 b4 : NpArray) : Prop :=
  (np_compat b1.rows b2.rows ∧ np_compat b1.rows b3.rows ∧
    np_compat b1.rows b4.rows ∧ np_compat b2.rows b3.rows ∧
    np_compat b2.rows b4.rows ∧ np_compat b3.rows b4.rows) ∧
  (np_compat b1.cols b2.cols ∧ np_compat b1.cols b3.cols ∧
    np_compat b1.cols b4.cols ∧ np_compat b2.cols b3.cols ∧
    np_compat b2.cols b4.cols ∧ np_compat b3.cols b4.cols)

/-! ### Helper lemmas -/

theorem bdim_some_compat {a b d : ℕ} (h : bdim a b = some d) :
    np_compat a b := by
  unfold bdim at h
  unfold np_compat
  split_ifs at h <;> tauto

theorem bdim_some_cases {a b d : ℕ} (h : bdim a b = some d) :
    (a = 1 ∧ d = b) ∨ (b = 1 ∧ d = a) ∨ (a = b ∧ d = a) := by
  unfold bdim at h
  split_ifs at h with h1 h2 h3
  · exact Or.inr (Or.inr ⟨h1, (Option.some_inj.mp h).symm⟩)
  · exact Or.inl ⟨h2, (Option.some_inj.mp h).symm⟩
  · exact Or.inr (Or.inl ⟨h3, (Option.some_inj.mp h).symm⟩)

/-- Compatibility transfers through a broadcast result: if `d` is the
broadcast of `a` and `b` and `d` is compatible with `c`, so are `a` and
`b`. -/
theorem bdim_some_trans {a b c d : ℕ} (hab : bdim a b = some d)
    (hc : np_compat d c) : np_compat a c ∧ np_compat b c := by
  rcases bdim_some_cases hab with ⟨h1, hd⟩ | ⟨h1, hd⟩ | ⟨h1, hd⟩
  · subst hd; exact ⟨Or.inr (Or.inl h1), hc⟩
  · subst hd; exact ⟨hc, Or.inr (Or.inl h1)⟩
  · subst hd; exact ⟨hc, h1 ▸ hc⟩

/-- A successful left-associated broadcast chain over four sizes forces all
six pairs to be compatible. -/
theorem bdim_chain_compat {a1 a2 a3 a4 d12 d123 d1234 : ℕ}
    (h12 : bdim a1 a2 = some d12) (h123 : bdim d12 a3 = some d123)
    (h1234 : bdim d123 a4 = some d1234) :
    np_compat a1 a2 ∧ np_compat a1 a3 ∧ np_compat a1 a4 ∧
      np_compat a2 a3 ∧ np_compat a2 a4 ∧ np_compat a3 a4 := by
  have c12 := bdim_some_compat h12
  have c3 := bdim_some_trans h12 (bdim_some_compat h123)
  have c4x := bdim_some_trans h123 (bdim_some_compat h1234)
  have c4 := bdim_some_trans h12 c4x.1
  exact ⟨c12, c3.1, c4.1, c3.2, c4.2, c4x.2⟩

/-- Inversion for a successful elementwise operation: both dimension pairs
broadcast, and the result carries the broadcast shape. -/
theorem np_binop_some {f : ℝ → ℝ → ℝ} {x y r : NpArray}
    (h : np_binop f x y = some r) :
    ∃ dr dc, bdim x.rows y.rows = some dr ∧ bdim x.cols y.cols = some dc ∧
      r.rows = dr ∧ r.cols = dc := by
  unfold np_binop at h
  rcases hr : bdim x.rows y.rows with _ | dr <;>
    rcases hc : bdim x.cols y.cols with _ | dc <;>
    rw [hr, hc] at h <;> simp at h
  exact ⟨dr, dc, rfl, rfl, by rw [← h], by rw [← h]⟩

/-- Inversion for a successful call of the shape-level beam-to-instrument
transform: the four beam shapes must be numpy-broadcast-compatible (the
vertical-velocity chain `((b1+b2)+b3)+b4` visits every pair). -/
theorem beam2ins_some_broadcastable {b1 b2 b3 b4 : NpArray} {r}
    (h : adcp_beam2ins_arr b1 b2 b3 b4 = some r) :
    beams_broadcastable b1 b2 b3 b4 := by
  simp only [adcp_beam2ins_arr] at h
  rcases Option.bind_eq_some'.mp h with ⟨u0, hu0, h⟩
  rcases Option.bind_eq_some'.mp h with ⟨v0, hv0, h⟩
  rcases Option.bind_eq_some'.mp h with ⟨w0, hw0, h⟩
  rcases Option.bind_eq_some'.mp hw0 with ⟨s12, hs12, hw0r⟩
  rcases Option.bind_eq_some'.mp hw0r with ⟨s123, hs123, hs1234⟩
  obtain ⟨dr12, dc12, hr12, hc12, hrow12, hcol12⟩ := np_binop_some hs12
  obtain ⟨dr123, dc123, hr123, hc123, hrow123, hcol123⟩ := np_binop_some hs123
  obtain ⟨dr1234, dc1234, hr1234, hc1234, -, -⟩ := np_binop_some hs1234
  rw [hrow12] at hr123
  rw [hrow123] at hr1234
  rw [hcol12] at hc123
  rw [hcol123] at hc1234
  exact ⟨bdim_chain_compat hr12 hr123 hr1234,
    bdim_chain_compat hc12 hc123 hc1234⟩

theorem deg2rad_neg (d : ℝ) : deg2rad (-d) = -deg2rad d := by
  unfold deg2rad; ring

theorem deg2rad_add_180 (d : ℝ) : deg2rad (d + 180) = deg2rad d + Real.pi := by
  unfold deg2rad; field_simp; ring

theorem deg2rad_zero : deg2rad 0 = 0 := by
  unfold deg2rad; ring

/-- The Einstein summation `MM(i,l) = M1(i,j) * M2(j,k) * M3(k,l)` is the
matrix product `M1 * M2 * M3`. -/
theorem ins2earth_MM_eq (heading pitch roll : ℝ) (vertical : ℕ) :
    ins2earth_MM heading pitch roll vertical =
      ins2earth_M1 heading * ins2earth_M2 pitch roll * ins2earth_M3 roll vertical := by
  ext i l
  simp [ins2earth_MM, Matrix.mul_apply, Fin.sum_univ_three]
  ring

theorem ins2earth_M1_eq (heading : ℝ) :
    ins2earth_M1 heading = heading_rotation (deg2rad heading) := rfl

theorem ins2earth_M2_eq (pitch roll : ℝ) :
    ins2earth_M2 pitch roll = pitch_rotation (ins2earth_P pitch roll) := rfl

theorem ins2earth_M3_eq (roll : ℝ) (vertical : ℕ) :
    ins2earth_M3 roll vertical =
      roll_rotation (deg2rad (ins2earth_R roll vertical)) := rfl

/-- The three Earth-frame output slices of `adcp_ins2earth`, viewed as one
vector per sample and bin, are the matrix-vector product of the combined
matrix with the instrument-frame vector of that bin. -/
theorem adcp_ins2earth_mulVec {n m : ℕ} (u v w : Fin n → Fin m → ℝ)
    (heading pitch roll : Fin n → ℝ) (vertical : Fin n → ℕ)
    (h : Fin n) (j : Fin m) (i : Fin 3) :
    ![(adcp_ins2earth u v w heading pitch roll vertical).1 h j,
      (adcp_ins2earth u v w heading pitch roll vertical).2.1 h j,
      (adcp_ins2earth u v w heading pitch roll vertical).2.2 h j] i =
      (ins2earth_MM (heading h) (pitch h) (roll h) (vertical h)).mulVec
        ![u h j, v h j, w h j] i := by
  fin_cases i <;>
    simp [adcp_ins2earth, Matrix.mulVec, Matrix.dotProduct, Fin.sum_univ_three,
      Matrix.vecHead, Matrix.vecTail]

theorem heading_rotation_orth (a : ℝ) :
    (heading_rotation a)ᵀ * heading_rotation a = 1 := by
  ext i j
  fin_cases i <;> fin_cases j <;>
    simp [heading_rotation, Matrix.mul_apply, Matrix.transpose_apply,
      Fin.sum_univ_three, Matrix.one_apply, Matrix.vecHead, Matrix.vecTail] <;>
    nlinarith [Real.sin_sq_add_cos_sq a]

theorem pitch_rotation_orth (a : ℝ) :
    (pitch_rotation a)ᵀ * pitch_rotation a = 1 := by
  ext i j
  fin_cases i <;> fin_cases j <;>
    simp [pitch_rotation, Matrix.mul_apply, Matrix.transpose_apply,
      Fin.sum_univ_three, Matrix.one_apply, Matrix.vecHead, Matrix.vecTail] <;>
    nlinarith [Real.sin_sq_add_cos_sq a]

theorem roll_rotation_orth (a : ℝ) :
    (roll_rotation a)ᵀ * roll_rotation a = 1 := by
  ext i j
  fin_cases i <;> fin_cases j <;>
    simp [roll_rotation, Matrix.mul_apply, Matrix.transpose_apply,
      Fin.sum_univ_three, Matrix.one_apply, Matrix.vecHead, Matrix.vecTail] <;>
    nlinarith [Real.sin_sq_add_cos_sq a]

theorem magcor_M_orth (t : ℝ) : (magcor_M t)ᵀ * magcor_M t = 1 := by
  ext i j
  fin_cases i <;> fin_cases j <;>
    simp [magcor_M, Matrix.mul_apply, Matrix.transpose_apply,
      Fin.sum_univ_two, Matrix.one_apply, Matrix.vecHead, Matrix.vecTail] <;>
    nlinarith [Real.sin_sq_add_cos_sq (deg2rad t)]

theorem orth_mul {k : ℕ} {A B : Matrix (Fin k) (Fin k) ℝ}
    (hA : Aᵀ * A = 1) (hB : Bᵀ * B = 1) : (A * B)ᵀ * (A * B) = 1 := by
  calc (A * B)ᵀ * (A * B) = Bᵀ * (Aᵀ * (A * B)) := by
        rw [Matrix.transpose_mul, Matrix.mul_assoc]
    _ = Bᵀ * (Aᵀ * A * B) := by rw [Matrix.mul_assoc]
    _ = Bᵀ * B := by rw [hA, Matrix.one_mul]
    _ = 1 := hB

theorem ins2earth_MM_orth (heading pitch roll : ℝ) (vertical : ℕ) :
    (ins2earth_MM heading pitch roll vertical)ᵀ *
      ins2earth_MM heading pitch roll vertical = 1 := by
  rw [ins2earth_MM_eq, ins2earth_M1_eq, ins2earth_M2_eq, ins2earth_M3_eq]
  exact orth_mul (orth_mul (heading_rotation_orth _) (pitch_rotation_orth _))
    (roll_rotation_orth _)

/-- A matrix with orthonormal columns preserves the sum of squares of a
vector. -/
theorem sumsq_mulVec {k : ℕ} {M : Matrix (Fin k) (Fin k) ℝ}
    (h : Mᵀ * M = 1) (x : Fin k → ℝ) :
    ∑ i, M.mulVec x i ^ 2 = ∑ i, x i ^ 2 := by
  have h2 : (M.mulVec x) ᵥ* M = x := by
    rw [← Matrix.mulVec_transpose, Matrix.mulVec_mulVec, h, Matrix.one_mulVec]
  have h1 : (M.mulVec x) ⬝ᵥ (M.mulVec x) = x ⬝ᵥ x := by
    rw [Matrix.dotProduct_mulVec, h2]
  simpa [Matrix.dotProduct, sq] using h1

theorem ins2earth_R_eq (roll : ℝ) (vertical : ℕ) :
    ins2earth_R roll vertical = roll + (if vertical = 1 then 180 else 0) := by
  unfold ins2earth_R; split_ifs <;> ring

/-- The two output slices of `magnetic_correction`, viewed as one vector per
sample and bin, are the matrix-vector product of the declination matrix with
the (east, north) pair of that bin. -/
theorem magnetic_correction_mulVec {n m : ℕ} (theta : Fin n → ℝ)
    (u v : Fin n → Fin m → ℝ) (h : Fin n) (j : Fin m) (i : Fin 2) :
    ![(magnetic_correction theta u v).1 h j,
      (magnetic_correction theta u v).2 h j] i =
      (magcor_M (theta h)).mulVec ![u h j, v h j] i := by
  fin_cases i <;>
    simp [magnetic_correction, Matrix.mulVec, Matrix.dotProduct,
      Fin.sum_univ_two, Matrix.vecHead, Matrix.vecTail]

/-! ### Claim theorems -/

/-- C1: `adcp_ins2earth` returns, for each sample `h` and bin `j`, the
Earth-frame vector `M1(heading_h) · M2(P_h) · M3(R_h)` applied to the
instrument-frame vector `(u, v, w)_{hj}`, where `R_h` is `roll_h + 180°` when
the orientation flag is 1 and `roll_h` otherwise,
`P_h = atan(tan(pitch_h)·cos(roll_h))` uses the raw (pre-offset) roll, the
matrices are the standard heading/pitch/roll axis rotations composed in the
fixed order `M1 · M2 · M3`, and the same combined matrix serves every bin of
sample `h`. -/
theorem ins2earth_is_batched_rotation {n m : ℕ} (u v w : Fin n → Fin m → ℝ)
    (heading pitch roll : Fin n → ℝ) (vertical : Fin n → ℕ)
    (h : Fin n) (j : Fin m) (i : Fin 3) :
    ![(adcp_ins2earth u v w heading pitch roll vertical).1 h j,
      (adcp_ins2earth u v w heading pitch roll vertical).2.1 h j,
      (adcp_ins2earth u v w heading pitch roll vertical).2.2 h j] i =
      (heading_rotation (deg2rad (heading h)) *
        pitch_rotation (Real.arctan (Real.tan (deg2rad (pitch h)) *
          Real.cos (deg2rad (roll h)))) *
        roll_rotation (deg2rad (roll h +
          (if vertical h = 1 then 180 else 0)))).mulVec
        ![u h j, v h j, w h j] i := by
  rw [adcp_ins2earth_mulVec, ins2earth_MM_eq, ins2earth_M1_eq,
    ins2earth_M2_eq, ins2earth_M3_eq, ins2earth_R_eq]
  rfl

/-- C5: the combined 3×3 matrix built by `adcp_ins2earth` and the 2×2
declination matrix built by `magnetic_correction` are orthogonal for all
angle inputs, and consequently, in exact real arithmetic, `adcp_ins2earth`
preserves the per-bin magnitude `√(E²+N²+U²)` and `magnetic_correction`
preserves the per-bin magnitude `√(E²+N²)`. -/
theorem rotation_orthogonality_and_norms :
    (∀ (heading pitch roll : ℝ) (vertical : ℕ),
        (ins2earth_MM heading pitch roll vertical)ᵀ *
          ins2earth_MM heading pitch roll vertical = 1) ∧
    (∀ theta : ℝ, (magcor_M theta)ᵀ * magcor_M theta = 1) ∧
    (∀ (n m : ℕ) (u v w : Fin n → Fin m → ℝ)
        (heading pitch roll : Fin n → ℝ) (vertical : Fin n → ℕ)
        (h : Fin n) (j : Fin m),
        Real.sqrt ((adcp_ins2earth u v w heading pitch roll vertical).1 h j ^ 2 +
            (adcp_ins2earth u v w heading pitch roll vertical).2.1 h j ^ 2 +
            (adcp_ins2earth u v w heading pitch roll vertical).2.2 h j ^ 2) =
          Real.sqrt (u h j ^ 2 + v h j ^ 2 + w h j ^ 2)) ∧
    (∀ (n m : ℕ) (theta : Fin n → ℝ) (u v : Fin n → Fin m → ℝ)
        (h : Fin n) (j : Fin m),
        Real.sqrt ((magnetic_correction theta u v).1 h j ^ 2 +
            (magnetic_correction theta u v).2 h j ^ 2) =
          Real.sqrt (u h j ^ 2 + v h j ^ 2)) := by
  refine ⟨ins2earth_MM_orth, magcor_M_orth, ?_, ?_⟩
  · intro n m u v w heading pitch roll vertical h j
    have e0 := adcp_ins2earth_mulVec u v w heading pitch roll vertical h j 0
    have e1 := adcp_ins2earth_mulVec u v w heading pitch roll vertical h j 1
    have e2 := adcp_ins2earth_mulVec u v w heading pitch roll vertical h j 2
    simp only [Matrix.cons_val_zero, Matrix.cons_val_one, Matrix.head_cons,
      Matrix.cons_val_two, Matrix.tail_cons] at e0 e1 e2
    rw [e0, e1, e2]
    congr 1
    have hsum := sumsq_mulVec
      (ins2earth_MM_orth (heading h) (pitch h) (roll h) (vertical h))
      ![u h j, v h j, w h j]
    simpa [Fin.sum_univ_three, Matrix.vecHead, Matrix.vecTail] using hsum
  · intro n m theta u v h j
    have e0 := magnetic_correction_mulVec theta u v h j 0
    have e1 := magnetic_correction_mulVec theta u v h j 1
    simp only [Matrix.cons_val_zero, Matrix.cons_val_one, Matrix.head_cons]
      at e0 e1
    rw [e0, e1]
    congr 1
    have hsum := sumsq_mulVec (magcor_M_orth (theta h)) ![u h j, v h j]
    simpa [Fin.sum_univ_two, Matrix.vecHead, Matrix.vecTail] using hsum

/-- C2: for beam arrays of identical shape, `adcp_beam2ins` returns arrays of
that shape with `u = c·a·(b1 − b2)`, `v = c·a·(b4 − b3)`,
`w = b·(b1 + b2 + b3 + b4)`, `e = d·(b1 + b2 − b3 − b4)`, where the beam
half-angle is `θ = 20°` in radians, `a = 1/(2 sin θ)`, `b = 1/(4 cos θ)`,
`c = +1` and `d = a/√2`. -/
theorem beam2ins_formulas {n m : ℕ} (b1 b2 b3 b4 : Fin n → Fin m → ℝ)
    (i : Fin n) (j : Fin m) :
    (adcp_beam2ins b1 b2 b3 b4).1 i j =
        1 * (1 / (2 * Real.sin (20 / 180 * Real.pi))) * (b1 i j - b2 i j) ∧
    (adcp_beam2ins b1 b2 b3 b4).2.1 i j =
        1 * (1 / (2 * Real.sin (20 / 180 * Real.pi))) * (b4 i j - b3 i j) ∧
    (adcp_beam2ins b1 b2 b3 b4).2.2.1 i j =
        1 / (4 * Real.cos (20 / 180 * Real.pi)) *
          (b1 i j + b2 i j + b3 i j + b4 i j) ∧
    (adcp_beam2ins b1 b2 b3 b4).2.2.2 i j =
        1 / (2 * Real.sin (20 / 180 * Real.pi)) / Real.sqrt 2 *
          (b1 i j + b2 i j - b3 i j - b4 i j) := by
  refine ⟨?_, ?_, ?_, ?_⟩ <;> norm_num [adcp_beam2ins]

/-- C3: `magnetic_correction` applies, for each sample `i` and every bin `j`,
the single rotation `u_cor = u·cos θᵢ + v·sin θᵢ`,
`v_cor = −u·sin θᵢ + v·cos θᵢ` (with `θᵢ` converted from degrees to
radians), the same matrix for all bins of sample `i`. -/
theorem magnetic_correction_formulas {n m : ℕ} (theta : Fin n → ℝ)
    (u v : Fin n → Fin m → ℝ) (i : Fin n) (j : Fin m) :
    (magnetic_correction theta u v).1 i j =
        u i j * Real.cos (deg2rad (theta i)) +
          v i j * Real.sin (deg2rad (theta i)) ∧
    (magnetic_correction theta u v).2 i j =
        -(u i j) * Real.sin (deg2rad (theta i)) +
          v i j * Real.cos (deg2rad (theta i)) := by
  constructor <;>
    simp [magnetic_correction, magcor_M, Fin.sum_univ_two, Matrix.vecHead,
      Matrix.vecTail] <;>
    ring

/-- C6: applying `magnetic_correction` with declination `θ` and then with
`−θ` returns the original East/North arrays exactly, for every per-sample
`θ` in `[−180°, 180°]`. -/
theorem magnetic_correction_roundtrip {n m : ℕ} (theta : Fin n → ℝ)
    (u v : Fin n → Fin m → ℝ)
    (hrange : ∀ h, -180 ≤ theta h ∧ theta h ≤ 180) :
    (magnetic_correction (fun h => -theta h)
        (magnetic_correction theta u v).1
        (magnetic_correction theta u v).2).1 = u ∧
    (magnetic_correction (fun h => -theta h)
        (magnetic_correction theta u v).1
        (magnetic_correction theta u v).2).2 = v := by
  have key : ∀ (h : Fin n) (k : Fin m),
      (magnetic_correction (fun h => -theta h)
          (magnetic_correction theta u v).1
          (magnetic_correction theta u v).2).1 h k = u h k ∧
      (magnetic_correction (fun h => -theta h)
          (magnetic_correction theta u v).1
          (magnetic_correction theta u v).2).2 h k = v h k := by
    intro h k
    have hpyth := Real.sin_sq_add_cos_sq (deg2rad (theta h))
    constructor
    · simp [magnetic_correction, magcor_M, Fin.sum_univ_two, Matrix.vecHead,
        Matrix.vecTail, deg2rad_neg, Real.cos_neg, Real.sin_neg]
      linear_combination u h k * hpyth
    · simp [magnetic_correction, magcor_M, Fin.sum_univ_two, Matrix.vecHead,
        Matrix.vecTail, deg2rad_neg, Real.cos_neg, Real.sin_neg]
      linear_combination v h k * hpyth
  exact ⟨funext fun h => funext fun k => (key h k).1,
    funext fun h => funext fun k => (key h k).2⟩

/-- Witness for C6 at `θ = 90°`, `(u, v) = (3, 4)` on a 1×1 batch. -/
theorem magnetic_correction_roundtrip_witness :
    (∀ h : Fin 1, -180 ≤ (fun _ : Fin 1 => (90 : ℝ)) h ∧
        (fun _ : Fin 1 => (90 : ℝ)) h ≤ 180) ∧
    ((magnetic_correction (fun h : Fin 1 => -(fun _ : Fin 1 => (90 : ℝ)) h)
        (magnetic_correction (fun _ : Fin 1 => (90 : ℝ))
          (fun _ _ => (3 : ℝ) : Fin 1 → Fin 1 → ℝ)
          (fun _ _ => (4 : ℝ) : Fin 1 → Fin 1 → ℝ)).1
        (magnetic_correction (fun _ : Fin 1 => (90 : ℝ))
          (fun _ _ => (3 : ℝ) : Fin 1 → Fin 1 → ℝ)
          (fun _ _ => (4 : ℝ) : Fin 1 → Fin 1 → ℝ)).2).1 =
      (fun _ _ => (3 : ℝ) : Fin 1 → Fin 1 → ℝ) ∧
    (magnetic_correction (fun h : Fin 1 => -(fun _ : Fin 1 => (90 : ℝ)) h)
        (magnetic_correction (fun _ : Fin 1 => (90 : ℝ))
          (fun _ _ => (3 : ℝ) : Fin 1 → Fin 1 → ℝ)
          (fun _ _ => (4 : ℝ) : Fin 1 → Fin 1 → ℝ)).1
        (magnetic_correction (fun _ : Fin 1 => (90 : ℝ))
          (fun _ _ => (3 : ℝ) : Fin 1 → Fin 1 → ℝ)
          (fun _ _ => (4 : ℝ) : Fin 1 → Fin 1 → ℝ)).2).2 =
      (fun _ _ => (4 : ℝ) : Fin 1 → Fin 1 → ℝ)) :=
  ⟨fun _ => by norm_num,
    magnetic_correction_roundtrip (fun _ => (90 : ℝ))
      (fun _ _ => (3 : ℝ)) (fun _ _ => (4 : ℝ)) (fun _ => by norm_num)⟩

/-- C4 counterexample: with heading 0°, pitch 45°, roll 0° and the
instrument-frame vector (0, 0, 1), calling `adcp_ins2earth` with orientation
flag 1 differs from calling it with flag 0 and roll increased by 180°: the
corrected pitch is computed from the raw roll, whose cosine changes sign
under a 180° shift. -/
theorem ins2earth_orientation_not_roll_shift :
    ¬ (adcp_ins2earth (fun _ _ => (0 : ℝ)) (fun _ _ => (0 : ℝ))
          (fun _ _ => (1 : ℝ) : Fin 1 → Fin 1 → ℝ)
          (fun _ => (0 : ℝ)) (fun _ => (45 : ℝ)) (fun _ => (0 : ℝ))
          (fun _ => 1) =
        adcp_ins2earth (fun _ _ => (0 : ℝ)) (fun _ _ => (0 : ℝ))
          (fun _ _ => (1 : ℝ) : Fin 1 → Fin 1 → ℝ)
          (fun _ => (0 : ℝ)) (fun _ => (45 : ℝ)) (fun _ => (0 : ℝ) + 180)
          (fun _ => 0)) := by
  intro hEq
  have h45 : deg2rad 45 = Real.pi / 4 := by unfold deg2rad; ring
  have h180 : deg2rad 180 = Real.pi := by
    unfold deg2rad; field_simp
  have hPa : ins2earth_P 45 0 = Real.pi / 4 := by
    unfold ins2earth_P
    rw [h45, deg2rad_zero, Real.tan_pi_div_four, Real.cos_zero, mul_one,
      Real.arctan_one]
  have hPb : ins2earth_P 45 180 = -(Real.pi / 4) := by
    unfold ins2earth_P
    rw [h45, h180, Real.tan_pi_div_four, Real.cos_pi, one_mul]
    rw [show (-1 : ℝ) = -(1 : ℝ) from rfl, Real.arctan_neg, Real.arctan_one]
  have hRa : deg2rad (ins2earth_R 0 1) = Real.pi := by
    have h1 : ins2earth_R 0 1 = (180 : ℝ) := by unfold ins2earth_R; norm_num
    rw [h1, h180]
  have hRb : deg2rad (ins2earth_R 180 0) = Real.pi := by
    have h1 : ins2earth_R 180 0 = (180 : ℝ) := by
      unfold ins2earth_R; norm_num
    rw [h1, h180]
  have hA : (adcp_ins2earth (fun _ _ => (0 : ℝ)) (fun _ _ => (0 : ℝ))
      (fun _ _ => (1 : ℝ) : Fin 1 → Fin 1 → ℝ)
      (fun _ => (0 : ℝ)) (fun _ => (45 : ℝ)) (fun _ => (0 : ℝ))
      (fun _ => 1)).2.1 0 0 = Real.sin (Real.pi / 4) := by
    simp [adcp_ins2earth, ins2earth_MM, ins2earth_M1, ins2earth_M2,
      ins2earth_M3, Fin.sum_univ_three, Matrix.vecHead, Matrix.vecTail,
      deg2rad_zero, hPa, hRa]
  have hB : (adcp_ins2earth (fun _ _ => (0 : ℝ)) (fun _ _ => (0 : ℝ))
      (fun _ _ => (1 : ℝ) : Fin 1 → Fin 1 → ℝ)
      (fun _ => (0 : ℝ)) (fun _ => (45 : ℝ)) (fun _ => (0 : ℝ) + 180)
      (fun _ => 0)).2.1 0 0 = -Real.sin (Real.pi / 4) := by
    simp [adcp_ins2earth, ins2earth_MM, ins2earth_M1, ins2earth_M2,
      ins2earth_M3, Fin.sum_univ_three, Matrix.vecHead, Matrix.vecTail,
      deg2rad_zero, hPb, hRb, Real.cos_pi, Real.sin_pi]
  rw [hEq, hB] at hA
  have hpos : 0 < Real.sin (Real.pi / 4) := by
    apply Real.sin_pos_of_pos_of_lt_pi <;> nlinarith [Real.pi_pos]
  nlinarith [hA, hpos]

/-- C4 amended: switching the orientation flag from downward (0) to upward
(1) is equivalent to adding 180° to roll AND negating pitch before the
transform, for every input; the bare 180° roll shift of the original claim
also flips the sign of the corrected pitch, which is computed from the raw
roll. -/
theorem ins2earth_orientation_roll_shift_pitch_neg {n m : ℕ}
    (u v w : Fin n → Fin m → ℝ) (heading pitch roll : Fin n → ℝ) :
    adcp_ins2earth u v w heading pitch roll (fun _ => 1) =
      adcp_ins2earth u v w heading (fun h => -(pitch h))
        (fun h => roll h + 180) (fun _ => 0) := by
  have hMM : ∀ h : Fin n,
      ins2earth_MM (heading h) (pitch h) (roll h) 1 =
        ins2earth_MM (heading h) (-(pitch h)) (roll h + 180) 0 := by
    intro h
    have hP : ins2earth_P (pitch h) (roll h) =
        ins2earth_P (-(pitch h)) (roll h + 180) := by
      unfold ins2earth_P
      rw [deg2rad_neg, deg2rad_add_180, Real.tan_neg, Real.cos_add_pi]
      ring_nf
    have hR : ins2earth_R (roll h) 1 = ins2earth_R (roll h + 180) 0 := by
      unfold ins2earth_R; norm_num
    have hM2 : ins2earth_M2 (pitch h) (roll h) =
        ins2earth_M2 (-(pitch h)) (roll h + 180) := by
      rw [ins2earth_M2_eq, ins2earth_M2_eq, hP]
    have hM3 : ins2earth_M3 (roll h) 1 = ins2earth_M3 (roll h + 180) 0 := by
      rw [ins2earth_M3_eq, ins2earth_M3_eq, hR]
    unfold ins2earth_MM
    rw [hM2, hM3]
  unfold adcp_ins2earth
  simp only [hMM]

/-- C7 counterexample: beam arrays with differing bin counts (4 vs 1) do NOT
make the beam-to-instrument transform fail — numpy silently broadcasts the
size-1 axis, the call succeeds and the east output has 4 bins. -/
theorem beam2ins_broadcasts_counterexample :
    (adcp_beam2ins_arr ⟨1, 4, fun _ _ => 100⟩ ⟨1, 1, fun _ _ => 0⟩
        ⟨1, 1, fun _ _ => 0⟩ ⟨1, 1, fun _ _ => 0⟩).isSome = true ∧
    Option.map (fun r => r.1.cols)
        (adcp_beam2ins_arr ⟨1, 4, fun _ _ => 100⟩ ⟨1, 1, fun _ _ => 0⟩
          ⟨1, 1, fun _ _ => 0⟩ ⟨1, 1, fun _ _ => 0⟩) = some 4 :=
  ⟨rfl, rfl⟩

/-- C7 amended: whenever the four beam arrays are NOT numpy-broadcast-
compatible (along some axis, a pair of sizes differs with neither side equal
to 1), the beam-to-instrument transform fails immediately with no partial
result; bin counts differing where one side is 1 are silently broadcast
rather than rejected. -/
theorem beam2ins_incompatible_shapes_fail (b1 b2 b3 b4 : NpArray)
    (h : ¬ beams_broadcastable b1 b2 b3 b4) :
    adcp_beam2ins_arr b1 b2 b3 b4 = none := by
  rcases hres : adcp_beam2ins_arr b1 b2 b3 b4 with _ | r
  · rfl
  · exact absurd (beam2ins_some_broadcastable hres) h

/-- Witness for the amended C7: b1 = b2 of shape (1,4) against b3 = b4 of
shape (1,3) are not broadcast-compatible and the call fails (here the first
elementwise operation succeeds and the failure arises later in the chain). -/
theorem beam2ins_incompatible_shapes_fail_witness :
    ¬ beams_broadcastable ⟨1, 4, fun _ _ => 100⟩ ⟨1, 4, fun _ _ => 100⟩
        ⟨1, 3, fun _ _ => 0⟩ ⟨1, 3, fun _ _ => 0⟩ ∧
    adcp_beam2ins_arr ⟨1, 4, fun _ _ => 100⟩ ⟨1, 4, fun _ _ => 100⟩
        ⟨1, 3, fun _ _ => 0⟩ ⟨1, 3, fun _ _ => 0⟩ = none :=
  ⟨by unfold beams_broadcastable np_compat; decide,
    beam2ins_incompatible_shapes_fail _ _ _ _
      (by unfold beams_broadcastable np_compat; decide)⟩

/-- C8 (code bug): `adcp_bin_depths` passes the NEGATED raw decapascal
pressure to `z_from_p`, not the decibar value `pressure / 1000` it computes
into the dead variable `pressure_dbar`; at pressure 10000 dPa the argument
actually supplied, `10000 * -1`, differs from the decibar value
`10000 / 1000` the specification says is supplied. -/
theorem bin_depths_pressure_bug :
    adcp_bin_depths 0 0 1 10000 0 45 = [z_from_p (10000 * -1) 45 0] ∧
    (10000 : ℝ) * -1 ≠ 10000 / 1000 := by
  constructor
  · unfold adcp_bin_depths
    rw [show List.range 1 = [0] from rfl]
    norm_num
  · norm_num

/-- C9: `adcp_bin_depths_pd8` with dist_first_bin = 200 cm, bin_size =
100 cm, num_bins = 3, sensor_depth = 50 m, downward orientation returns
exactly [52, 53, 54] m; in general (for nonnegative sensor depth) downward
orientation adds and upward orientation subtracts the evenly spaced offsets
`dist_first_bin/100 + (bin_size/100)·k`, k = 0 .. num_bins−1. -/
theorem bin_depths_pd8_values :
    adcp_bin_depths_pd8 200 100 3 50 0 = [52, 53, 54] ∧
    (∀ (dist_first_bin bin_size : ℝ) (num_bins : ℕ) (sensor_depth : ℝ),
        0 ≤ sensor_depth →
        adcp_bin_depths_pd8 dist_first_bin bin_size num_bins sensor_depth 0 =
          (List.range num_bins).map
            (fun k => sensor_depth + (dist_first_bin / 100 + bin_size / 100 * k)) ∧
        adcp_bin_depths_pd8 dist_first_bin bin_size num_bins sensor_depth 1 =
          (List.range num_bins).map
            (fun k => sensor_depth - (dist_first_bin / 100 + bin_size / 100 * k))) := by
  constructor
  · unfold adcp_bin_depths_pd8
    norm_num [List.range_succ]
  · intro dist_first_bin bin_size num_bins sensor_depth hsd
    have hneg : ¬ (sensor_depth < 0) := not_lt.mpr hsd
    unfold adcp_bin_depths_pd8
    constructor <;> simp [hneg]

/-- Witness for the hypothesised part of C9: the upward-looking case at the
concrete scenario. -/
theorem bin_depths_pd8_values_witness :
    (0 : ℝ) ≤ 50 ∧
    adcp_bin_depths_pd8 200 100 3 50 1 =
      (List.range 3).map (fun k => (50 : ℝ) - (200 / 100 + 100 / 100 * k)) :=
  ⟨by norm_num, (bin_depths_pd8_values.2 200 100 3 50 (by norm_num)).2⟩

/-- C10: for every nonnegative `d`, `adcp_bin_depths_pd8` at sensor depth
`−d` returns exactly its result at sensor depth `d`: a negative sensor depth
is silently replaced by its absolute value before the bin depths are
computed. -/
theorem bin_depths_pd8_abs_sensor_depth
    (dist_first_bin bin_size : ℝ) (num_bins : ℕ) (adcp_orientation : ℕ)
    (d : ℝ) (hd : 0 ≤ d) :
    adcp_bin_depths_pd8 dist_first_bin bin_size num_bins (-d)
        adcp_orientation =
      adcp_bin_depths_pd8 dist_first_bin bin_size num_bins d
        adcp_orientation := by
  have hval : (if (-d : ℝ) < 0 then (-d) * -1 else (-d)) =
      (if d < 0 then d * -1 else d) := by
    rcases eq_or_lt_of_le hd with h0 | hpos
    · rw [← h0]; norm_num
    · rw [if_pos (by linarith : (-d : ℝ) < 0),
        if_neg (by linarith : ¬ (d < 0))]
      ring
  simp only [adcp_bin_depths_pd8]
  rw [hval]

/-- Witness for C10 at `d = 7`. -/
theorem bin_depths_pd8_abs_sensor_depth_witness :
    (0 : ℝ) ≤ 7 ∧
    adcp_bin_depths_pd8 200 100 3 (-7) 0 = adcp_bin_depths_pd8 200 100 3 7 0 :=
  ⟨by norm_num, bin_depths_pd8_abs_sensor_depth 200 100 3 0 7 (by norm_num)⟩

end AdcpFunctions
